import Mathlib

/-!
Verification of the MongoDB library-catalog application.

This file gives a shallow embedding, in Lean 4, of the pieces of the
repository that the specification's claims are about:

* the field parsers of `app/utils/parse_helpers.py` (parse_dict,
  parse_list, parse_year), with the external `dateutil` fuzzy parser and
  the standard-library `ast.literal_eval` treated as oracle parameters;
* the chunk transformation pipeline of `app/pipelines/transform.py`
  (drop columns, parse dict columns, normalize ratingsByStars, clean the
  author field, derive publishYear);
* the legacy author cleanup of `app/library_catalog.py` (which filters a
  differently-encoded truncation marker);
* the catalog-store operations of `app/db/library_catalog.py`:
  populate_from_csv, get_book, get_books_by_author,
  get_top_rated_books_by_year, upsert_book, rate_book, delete_book.

Modelling conventions: Python values flowing through pandas cells and
document fields are a `Value` inductive; Python dicts and DataFrame rows
are ordered association lists (`Row`), matching insertion-ordered dict
semantics; a Python function that can raise returns `Except PyErr`;
CPython float rounding (`round(x, n)`, which rounds half to even) is
modelled as exact rational round-half-to-even; `str.lower()` is modelled
as ASCII lowercasing (every character relevant to the truncation markers
is unaffected by case mapping); the pandas `.str` accessor's column
validation — AttributeError on a column with non-null cells but no
strings — is modelled by `str_accessor_ok`.  The MongoDB client is an
external
collaborator: store calls are represented by the plan values
(filters/sorts/limits/updates) the code hands to it, so an error result
is an exception raised before any store call of that operation.
-/

/-- Kinds of Python exceptions that the embedded code can raise.
`invalidId` stands for `bson.errors.InvalidId`, raised by the `ObjectId`
constructor on a malformed id string; the others are the builtins. -/
inductive PyErr where
  | valueError (msg : String)
  | typeError
  | attributeError
  | indexError
  | zeroDivisionError
  | invalidId
deriving Repr, DecidableEq

instance {ε α : Type} [DecidableEq ε] [DecidableEq α] :
    DecidableEq (Except ε α) := fun x y =>
  match x, y with
  | .ok a, .ok b =>
      if h : a = b then .isTrue (by rw [h]) else
        .isFalse (by intro hx; cases hx; exact h rfl)
  | .error a, .error b =>
      if h : a = b then .isTrue (by rw [h]) else
        .isFalse (by intro hx; cases hx; exact h rfl)
  | .ok a, .error b => .isFalse (by intro hx; cases hx)
  | .error a, .ok b => .isFalse (by intro hx; cases hx)

/-- Python values as they appear in pandas cells and Mongo documents:
None/NaN, booleans, ints, floats (as exact rationals), strings,
datetimes (year, month, day), BSON ObjectIds (their 24-hex-char string),
lists and dicts. -/
inductive Value where
  | nullV
  | boolV (b : Bool)
  | intV (n : ℤ)
  | ratV (q : ℚ)
  | strV (s : String)
  | dateV (y m d : ℤ)
  | oidV (s : String)
  | listV (elems : List Value)
  | dictV (pairs : List (String × Value))
deriving Repr

/-- A DataFrame row / Python dict: an insertion-ordered association list
from column name to value. -/
abbrev Row : Type := List (String × Value)

/-- Look up a column's value (first binding wins, as in a dict). -/
def getCol (r : Row) (k : String) : Option Value :=
  List.lookup k r

/-- Python dict assignment `d[k] = v` / DataFrame column assignment:
replace the first binding of `k` in place, or append a new binding at
the end (insertion order). -/
def setCol : Row → String → Value → Row
  | [], k, v => [(k, v)]
  | (k', v') :: rest, k, v =>
      if k' = k then (k, v) :: rest else (k', v') :: setCol rest k v

/-- Remove a column (`DataFrame.drop` / `del d[k]`). -/
def dropCol (r : Row) (k : String) : Row :=
  r.filter (fun p => p.1 ≠ k)

/-- Element-wise `Series.apply f` on the column named `k`. -/
def mapCol (r : Row) (k : String) (f : Value → Value) : Row :=
  r.map (fun p => if p.1 = k then (p.1, f p.2) else p)

/-- Error-propagating map over a list (the semantics of applying a
fallible element-wise operation to a pandas column, and of a loop
inserting chunk after chunk): the first exception aborts everything
after it. -/
def mapE (f : α → Except PyErr β) : List α → Except PyErr (List β)
  | [] => .ok []
  | x :: xs => do
    let y ← f x
    let ys ← mapE f xs
    pure (y :: ys)

/-- Element-wise `Series.apply f` on column `k` where `f` can raise; the
first exception aborts the whole chunk, as in pandas. -/
def mapColE (r : Row) (k : String) (f : Value → Except PyErr Value) :
    Except PyErr Row :=
  mapE (fun p =>
    if p.1 = k then do pure (p.1, (← f p.2)) else pure p) r

/-- Python round-half-to-even of the exact ratio `a / b` to an integer:
the semantics of CPython `round(x)`, idealized from binary floating
point to exact rational arithmetic.  The sign normalization makes it
correct for every `b ≠ 0`; in the code the divisor is a ratings total
already guarded against zero. -/
def round_half_even (a b : ℤ) : ℤ :=
  let a' := if b < 0 then -a else a
  let b' := if b < 0 then -b else b
  let q := a'.ediv b'
  let r := a' - b' * q
  if 2 * r < b' then q
  else if b' < 2 * r then q + 1
  else if q % 2 = 0 then q else q + 1

/-- CPython `round(a / b, 2)`: round half-to-even at two decimal places
(idealized to exact rational arithmetic), returned as a rational. -/
def py_round2 (a b : ℤ) : ℚ :=
  Rat.divInt (round_half_even (100 * a) b) 100

/-- Python `lst[i] += 1`: increment the element at index `i`, raising
IndexError (here: `none`) when the index is out of range. -/
def bump_at : List ℤ → ℕ → Option (List ℤ)
  | [], _ => none
  | x :: xs, 0 => some ((x + 1) :: xs)
  | x :: xs, n + 1 => (bump_at xs n).map (fun ys => x :: ys)

/-- The weighted star total `sum((5 - i) * count for i, count in
enumerate(ratingsByStars))` from rate_book. -/
def weighted_sum (l : List ℤ) : ℤ :=
  (l.enum.map (fun p => ((5 : ℤ) - (p.1 : ℤ)) * p.2)).sum

/-- The four fields rate_book recomputes and persists. -/
structure RatingUpdate where
  ratingsByStars : List ℤ
  numRatings : ℤ
  rating : ℚ
  likedPercent : ℤ
deriving Repr, DecidableEq

/-- The base bucket list rate_book starts from: the stored
`ratingsByStars` when present and truthy, else the all-zero default
(in Python both a missing field and an empty list are falsy). -/
def stored_base (stored : Option (List ℤ)) : List ℤ :=
  match stored with
  | none => [0, 0, 0, 0, 0]
  | some l => if l.isEmpty then [0, 0, 0, 0, 0] else l

/-- Lines 350-383 of `app/db/library_catalog.py` (`rate_book`) given the
fetched book's stored `ratingsByStars` field (`none` = field absent;
`some []` and absence are both falsy, selecting the all-zero default).
Validates `stars`, increments bucket `5 - stars`, then recomputes
numRatings, rating (round to 2 decimals) and likedPercent. -/
def rate_book_update (stored : Option (List ℤ)) (stars : ℤ) :
    Except PyErr RatingUpdate :=
  if stars < 1 ∨ 5 < stars then
    .error (PyErr.valueError "Rating stars must be between 1 and 5.")
  else
    match bump_at (stored_base stored) (5 - stars).toNat with
    | none => .error PyErr.indexError
    | some rbs =>
      let num := rbs.sum
      if num = 0 then .error PyErr.zeroDivisionError
      else
        .ok { ratingsByStars := rbs
              numRatings := num
              rating := py_round2 (weighted_sum rbs) num
              likedPercent := round_half_even (100 * (rbs.take 3).sum) num }

/-- Model of `rate_book` including the fetch outcome: `fetched = none` models a
miss of `get_book` (the method returns None); otherwise the fetched
document's `ratingsByStars` field is passed on.  The stars bounds check
happens before the fetch, as in the source. -/
def rate_book (fetched : Option (Option (List ℤ))) (stars : ℤ) :
    Except PyErr (Option RatingUpdate) :=
  if stars < 1 ∨ 5 < stars then
    .error (PyErr.valueError "Rating stars must be between 1 and 5.")
  else
    match fetched with
    | none => .ok none
    | some stored => (rate_book_update stored stars).map some

example : rate_book_update none 5 =
    .ok ⟨[1, 0, 0, 0, 0], 1, 5, 100⟩ := by decide

example : rate_book_update (some [1, 0, 0, 0, 0]) 1 =
    .ok ⟨[1, 0, 0, 0, 1], 2, 3, 50⟩ := by decide

/-- Everything the increment step guarantees: in-range increments
succeed, touch exactly the chosen index, preserve length and
non-negativity, and raise the sum by one. -/
theorem bump_at_spec (l : List ℤ) (i : ℕ) (h : i < l.length) :
    ∃ l', bump_at l i = some l' ∧
      l'.length = l.length ∧
      l'.get? i = (l.get? i).map (fun x => x + 1) ∧
      (∀ j, j ≠ i → l'.get? j = l.get? j) ∧
      l'.sum = l.sum + 1 ∧
      ((∀ x ∈ l, 0 ≤ x) → ∀ x ∈ l', 0 ≤ x) := by
  induction l generalizing i with
  | nil => simp at h
  | cons x xs ih =>
    cases i with
    | zero =>
      refine ⟨(x + 1) :: xs, rfl, by simp, by simp, ?_, by simp; ring, ?_⟩
      · intro j hj
        cases j with
        | zero => exact absurd rfl hj
        | succ n => simp
      · intro hnn y hy
        rcases List.mem_cons.mp hy with hy | hy
        · have := hnn x (by simp)
          omega
        · exact hnn y (by simp [hy])
    | succ n =>
      have hn : n < xs.length := by simpa using h
      obtain ⟨l', hb, hlen, hget, hother, hsum, hnn⟩ := ih n hn
      refine ⟨x :: l', by simp [bump_at, hb], by simp [hlen], by simpa using hget,
        ?_, by simp [hsum]; ring, ?_⟩
      · intro j hj
        cases j with
        | zero => simp
        | succ m => simpa using hother m (by omega)
      · intro hall y hy
        rcases List.mem_cons.mp hy with hy | hy
        · rw [hy]; exact hall x (by simp)
        · exact hnn (fun z hz => hall z (by simp [hz])) y hy

/-- Under the data-model precondition (field absent, or a 5-element
list of non-negative counts) and stars in bounds, rate_book's update
succeeds and is fully characterized. -/
theorem rate_book_update_ok (stored : Option (List ℤ)) (stars : ℤ)
    (h1 : 1 ≤ stars) (h5 : stars ≤ 5)
    (hpre : stored = none ∨
      ∃ l, stored = some l ∧ l.length = 5 ∧ ∀ x ∈ l, 0 ≤ x) :
    ∃ rbs, bump_at (stored_base stored) (5 - stars).toNat = some rbs ∧
      rate_book_update stored stars =
        .ok { ratingsByStars := rbs
              numRatings := rbs.sum
              rating := py_round2 (weighted_sum rbs) rbs.sum
              likedPercent := round_half_even (100 * (rbs.take 3).sum) rbs.sum } ∧
      rbs.length = 5 ∧ (∀ x ∈ rbs, 0 ≤ x) ∧ 1 ≤ rbs.sum ∧
      rbs.get? (5 - stars).toNat =
        ((stored_base stored).get? (5 - stars).toNat).map (fun x => x + 1) ∧
      (∀ j, j ≠ (5 - stars).toNat →
        rbs.get? j = (stored_base stored).get? j) := by
  have hbase : (stored_base stored).length = 5 ∧
      ∀ x ∈ stored_base stored, 0 ≤ x := by
    rcases hpre with h | ⟨l, rfl, hlen, hnn⟩
    · subst h; constructor <;> simp [stored_base]
    · match l, hlen with
      | a :: t, hlen =>
        refine ⟨?_, ?_⟩
        · simpa [stored_base, List.isEmpty] using hlen
        · intro x hx
          exact hnn x (by simpa [stored_base, List.isEmpty] using hx)
  have hidx : (5 - stars).toNat < (stored_base stored).length := by
    omega
  obtain ⟨rbs, hb, hlen, hget, hother, hsum, hnn⟩ :=
    bump_at_spec (stored_base stored) (5 - stars).toNat hidx
  have hsumnn : 0 ≤ (stored_base stored).sum := List.sum_nonneg hbase.2
  have hpos : 1 ≤ rbs.sum := by omega
  refine ⟨rbs, hb, ?_, by omega, hnn hbase.2, hpos, hget, hother⟩
  have hcond : ¬(stars < 1 ∨ 5 < stars) := by omega
  simp only [rate_book_update, if_neg hcond, hb]
  simp [if_neg (by omega : ¬rbs.sum = 0)]

/-- Characters Python `str.strip()` removes (ASCII whitespace; the
Unicode whitespace Python additionally strips never occurs in the data
these claims touch). -/
def py_strip_chars (l : List Char) : List Char :=
  ((l.dropWhile Char.isWhitespace).reverse.dropWhile Char.isWhitespace).reverse

/-- Python `s.strip()`. -/
def py_strip (s : String) : String :=
  ⟨py_strip_chars s.data⟩

/-- Trailing-whitespace removal (what the regex `\s*` before a literal
consumes). -/
def py_rstrip_chars (l : List Char) : List Char :=
  (l.reverse.dropWhile Char.isWhitespace).reverse

/-- Python `s.lower()`, restricted to ASCII case mapping (sufficient for
every string these claims compare). -/
def py_lower (s : String) : String :=
  ⟨s.data.map Char.toLower⟩

/-- Split a character list at every occurrence of `c` (Python
`s.split(c)` semantics: n separators give n+1 parts). -/
def split_on_char (c : Char) : List Char → List (List Char)
  | [] => [[]]
  | x :: xs =>
    if x = c then [] :: split_on_char c xs
    else
      match split_on_char c xs with
      | [] => [[x]]
      | h :: t => (x :: h) :: t

/-- Fuel-driven split of `l` at every occurrence of the pattern `pat`
(leftmost-first, non-overlapping, like `str.split(pat)` /
`re.sub` with a literal pattern).  The fuel is the length of `l`, which
bounds the number of steps. -/
def split_on_pat_fuel (pat : List Char) : ℕ → List Char → List (List Char)
  | 0, l => [l]
  | fuel + 1, l =>
    match l with
    | [] => [[]]
    | x :: xs =>
      if pat ≠ [] ∧ pat.isPrefixOf (x :: xs) then
        [] :: split_on_pat_fuel pat fuel ((x :: xs).drop pat.length)
      else
        match split_on_pat_fuel pat fuel xs with
        | [] => [[x]]
        | h :: t => (x :: h) :: t

/-- Split a string at every occurrence of the literal pattern `pat`. -/
def split_on_pat (pat : String) (s : String) : List (List Char) :=
  split_on_pat_fuel pat.data s.data.length s.data

/-- Numeric value of a string of decimal digits. -/
def digits_to_nat (l : List Char) : ℕ :=
  l.foldl (fun acc c => 10 * acc + (c.toNat - '0'.toNat)) 0

/-- Python `str(value)` as parse_year applies it to a cell.  It is exact
on the scalar shapes a CSV cell can hold (string, int, bool, None);
container and date renderings are nominal, and no theorem depends on
them. -/
def py_str : Value → String
  | .strV s => s
  | .intV n => toString n
  | .boolV true => "True"
  | .boolV false => "False"
  | .nullV => "None"
  | .ratV q => toString q
  | .dateV y m d => toString y ++ "-" ++ toString m ++ "-" ++ toString d
  | .oidV s => s
  | .listV _ => "[...]"
  | .dictV _ => "..."

/-- Model of `pd.isna`: true on missing values (None / NaN). -/
def pd_isna : Value → Bool
  | .nullV => true
  | _ => false

/-- Model of `parse_year` from `app/utils/parse_helpers.py`.  `fuzzy` is the
external `dateutil.parser.parse(s, fuzzy=True).year` call, returning
`none` when that call raises (ValueError / OverflowError / TypeError):
missing input gives None, a trimmed exact 4-digit string is converted
directly, everything else goes through the fuzzy date parser. -/
def parse_year (fuzzy : String → Option ℤ) (v : Value) : Option ℤ :=
  if pd_isna v then none
  else
    let s := py_strip (py_str v)
    if s = "" then none
    else if s.data.length = 4 ∧ s.data.all Char.isDigit then
      some (digits_to_nat s.data : ℕ)
    else fuzzy s

/-- Model of `parse_dict` from `app/utils/parse_helpers.py`.  `litEval` is the
standard-library `ast.literal_eval`, returning `none` when it raises
ValueError / SyntaxError: a string is parsed as a Python literal and
returned, falling back to the original string on failure; every other
value passes through unchanged. -/
def parse_dict (litEval : String → Option Value) : Value → Value
  | .strV s =>
    match litEval s with
    | some v => v
    | none => .strV s
  | v => v

/-- Model of `parse_list` from `app/utils/parse_helpers.py`: split a string on
commas, strip each item, and keep the non-empty ones; non-strings give
the empty list. -/
def parse_list : Value → List String
  | .strV s =>
    (((split_on_char ',' s.data).map (fun l => py_strip ⟨l⟩)).filter
      (fun t => t ≠ ""))
  | _ => []

/-- Python `int(s)` on a string: optional sign, then decimal digits,
surrounding whitespace allowed; anything else raises ValueError. -/
def py_int_of_string (s : String) : Except PyErr ℤ :=
  let t := py_strip_chars s.data
  let neg : Bool := match t with | '-' :: _ => true | _ => false
  let core := match t with
    | '-' :: rest => rest
    | '+' :: rest => rest
    | other => other
  if core ≠ [] ∧ core.all Char.isDigit then
    .ok (if neg then -(digits_to_nat core : ℕ) else (digits_to_nat core : ℕ))
  else .error (PyErr.valueError "invalid literal for int() with base 10")

/-- The Python builtin `int(x)` on a cell value: ints pass through,
booleans become 0/1, floats truncate toward zero, strings must be
decimal literals (ValueError otherwise), and None/containers/dates
raise TypeError. -/
def py_int_value : Value → Except PyErr ℤ
  | .intV n => .ok n
  | .boolV b => .ok (if b then 1 else 0)
  | .ratV q => .ok (q.num.tdiv q.den)
  | .strV s => py_int_of_string s
  | _ => .error PyErr.typeError

/-- The ratingsByStars normalizer of `app/pipelines/transform.py` lines
59-64 (and the identical `to_int_list` of `app/library_catalog.py`):
a parsed list is coerced element-wise with `int`, anything that is not
a list becomes the all-zero default. -/
def ratings_to_int_list : Value → Except PyErr (List ℤ)
  | .listV l => l.mapM py_int_value
  | _ => .ok [0, 0, 0, 0, 0]

/-- The pandas regex replacement removing the literal marker together
with any whitespace directly before it (pattern: optional whitespace
then "(Goodreads Author)"). -/
def remove_goodreads_marker (s : String) : String :=
  let parts := split_on_pat "(Goodreads Author)" s
  ⟨(parts.dropLast.map py_rstrip_chars).flatten ++ parts.getLastD []⟩

/-- The truncation marker in its correct Unicode form, as matched by
`app/pipelines/transform.py`. -/
def more_marker : String := "more…"

/-- The truncation marker in its corrupted (mis-decoded UTF-8) form, as
matched by the legacy cleanup in `app/library_catalog.py`. -/
def more_marker_mangled : String := "moreâ€¦"

/-- The author-field cleanup: strip "(Goodreads Author)", split into a
list, then keep only the entries whose stripped lowercase form differs
from the truncation marker, stripping each survivor.  `marker` is
`more_marker` in `app/pipelines/transform.py` line 89 and
`more_marker_mangled` in `app/library_catalog.py` line 126. -/
def clean_author_string (marker : String) (s : String) : List String :=
  ((parse_list (.strV (remove_goodreads_marker s))).filter
    (fun a => py_lower (py_strip a) ≠ marker)).map py_strip

/-- The author column's element transform, applied once the `.str`
accessor validation has passed: pandas `.str.replace` keeps string
cells and turns the non-string cells of a validated mixed column into
NaN, and `parse_list` of NaN is the empty list. -/
def transform_author_value (marker : String) : Value → List String
  | .strV s => clean_author_string marker s
  | _ => []

/-- True of the cells the pandas `.str` accessor counts as strings. -/
def is_str_value : Value → Bool
  | .strV _ => true
  | _ => false

/-- Validation performed by the pandas `.str` accessor on the author
column before any element is touched: it raises AttributeError ("Can
only use .str accessor with string values!") when the column holds at
least one non-null cell but no string cell — an all-numeric or boolean
author column, as CSV dtype inference produces.  An all-null column
(inferred "empty") or any column containing a string (inferred
"string" / "mixed" / "mixed-integer") passes. -/
def str_accessor_ok (col : List Value) : Bool :=
  col.all pd_isna || col.any is_str_value

example : clean_author_string more_marker
    "J.K. Rowling(Goodreads Author), Mary GrandPré, more…" =
    ["J.K. Rowling", "Mary GrandPré"] := by decide

example : clean_author_string more_marker "A, moreâ€¦" =
    ["A", "moreâ€¦"] := by decide

example : clean_author_string more_marker_mangled "A, moreâ€¦" =
    ["A"] := by decide

/-- The fixed ingestion-irrelevant columns dropped first
(`__drop_unnecessary_columns`). -/
def drop_cols_list : List String :=
  ["bookId", "firstPublishDate", "coverImg", "bbeScore", "bbeVotes", "price"]

/-- The "structured" columns parsed element-wise with parse_dict
(`__transform_dict_columns`). -/
def dict_cols_list : List String :=
  ["genres", "characters", "awards", "ratingsByStars", "setting"]

/-- Stage `__drop_unnecessary_columns`: drop each listed column if present. -/
def drop_unnecessary_columns (r : Row) : Row :=
  r.filter (fun p => ¬ p.1 ∈ drop_cols_list)

/-- Stage `__transform_dict_columns`: apply parse_dict element-wise to each
structured column that is present. -/
def transform_dict_columns (litEval : String → Option Value) (r : Row) :
    Row :=
  dict_cols_list.foldl
    (fun acc col =>
      if (getCol acc col).isSome then mapCol acc col (parse_dict litEval)
      else acc)
    r

/-- Stage `__transform_ratings_by_stars`: if the column is present, coerce
each entry to a list of integers ([0,0,0,0,0] when the entry is not a
list); the `int` coercion inside can raise. -/
def transform_ratings_by_stars (r : Row) : Except PyErr Row :=
  if (getCol r "ratingsByStars").isSome then
    mapColE r "ratingsByStars"
      (fun v => (ratings_to_int_list v).map (fun l => .listV (l.map .intV)))
  else .ok r

/-- The element-wise body of stage `__transform_authors`, applied to
each row once the column-level `.str` accessor validation has passed:
build the authors column from the cleaned split of the author cell (the
new column is appended, as pandas does), then drop the original author
column. -/
def transform_authors (marker : String) (r : Row) : Row :=
  match getCol r "author" with
  | some v =>
    dropCol
      (setCol r "authors"
        (.listV ((transform_author_value marker v).map .strV)))
      "author"
  | none => r

/-- Stage `__transform_authors` on a one-row chunk: the `.str` accessor
validates the single-cell author column first, so a non-null non-string
author cell raises AttributeError; a validated (or absent) column is
transformed element-wise. -/
def transform_authors_row (marker : String) (r : Row) :
    Except PyErr Row :=
  match getCol r "author" with
  | some v =>
    if str_accessor_ok [v] then .ok (transform_authors marker r)
    else .error PyErr.attributeError
  | none => .ok r

/-- Stage `__transform_authors` on a whole chunk: when the author column
is present, the `.str` accessor first validates the entire column (see
`str_accessor_ok`); only then is every row transformed element-wise.
Rows of a pandas chunk share their columns, so column presence is
modelled as some row holding the key. -/
def transform_authors_chunk (marker : String) (rows : List Row) :
    Except PyErr (List Row) :=
  if (rows.filterMap (fun r => getCol r "author")).isEmpty then .ok rows
  else if str_accessor_ok (rows.filterMap (fun r => getCol r "author")) then
    .ok (rows.map (transform_authors marker))
  else .error PyErr.attributeError

/-- A parse_year result as a nullable-integer (pandas `Int64`) cell:
a missing year is stored as a null. -/
def year_value : Option ℤ → Value
  | some y => .intV y
  | none => .nullV

/-- When a publishDate column is present, assign the publishYear column
from parse_year of each publishDate cell; the publishDate column itself
is not touched by this stage. -/
def transform_publish_year (fuzzy : String → Option ℤ) (r : Row) : Row :=
  match getCol r "publishDate" with
  | some v => setCol r "publishYear" (year_value (parse_year fuzzy v))
  | none => r

/-- Model of `transform_chunk` of `app/pipelines/transform.py` on a
one-row chunk: the five stages in source order; the ratingsByStars
integer coercion and the author-column `.str` accessor can raise. -/
def transform_row (litEval : String → Option Value)
    (fuzzy : String → Option ℤ) (r : Row) : Except PyErr Row := do
  let r2 := transform_dict_columns litEval (drop_unnecessary_columns r)
  let r3 ← transform_ratings_by_stars r2
  let r4 ← transform_authors_row more_marker r3
  pure (transform_publish_year fuzzy r4)

/-- Model of `transform_chunk` of `app/pipelines/transform.py` on a chunk
of rows: the five stages in source order, each applied to the whole
chunk (drop, dict-parse and publishYear derivation are element-wise and
total; the ratings coercion raises at the first poisoned cell, and the
authors stage validates the whole column before touching any cell).
The first exception aborts the chunk, as in pandas. -/
def transform_chunk (litEval : String → Option Value)
    (fuzzy : String → Option ℤ) (rows : List Row) :
    Except PyErr (List Row) := do
  let r2s := rows.map
    (fun r => transform_dict_columns litEval (drop_unnecessary_columns r))
  let r3s ← mapE transform_ratings_by_stars r2s
  let r4s ← transform_authors_chunk more_marker r3s
  pure (r4s.map (transform_publish_year fuzzy))

example : transform_chunk (fun _ => none) (fun _ => none)
    [[("author", Value.intV 123)]] = .error PyErr.attributeError := rfl

example : transform_row (fun _ => none) (fun _ => none)
    [("author", Value.ratV 2)] = .error PyErr.attributeError := rfl

example : transform_authors_chunk more_marker
    [[("author", Value.strV "A")], [("author", Value.intV 5)]] =
    .ok [[("authors", Value.listV [Value.strV "A"])],
         [("authors", Value.listV [])]] := rfl

example : transform_chunk (fun _ => none) (fun _ => none)
    [[("author", Value.nullV)]] =
    .ok [[("authors", Value.listV [])]] := rfl

/-- A hexadecimal character (as accepted by the ObjectId parser). -/
def is_hex_char (c : Char) : Bool :=
  c.isDigit || ('a' ≤ c && c ≤ 'f') || ('A' ≤ c && c ≤ 'F')

/-- Model of `bson.ObjectId(s)` on a string: accepts exactly the 24-character
hexadecimal strings, raising InvalidId (`none`) otherwise. -/
def object_id_of_string (s : String) : Option String :=
  if s.data.length = 24 ∧ s.data.all is_hex_char then some s else none

/-- A find call handed to the store: filter, optional (field, direction)
sort, optional limit. -/
structure FindPlan where
  filter : Row
  sortSpec : Option (String × ℤ)
  lim : Option ℤ

/-- A find_one_and_update call handed to the store. -/
structure UpdatePlan where
  filterId : String
  updates : Row
  upsert : Bool

/-- Python truthiness of the `limit` argument (`if limit:`): None and 0
both mean "no limit applied". -/
def py_limit (lim : Option ℤ) : Option ℤ :=
  match lim with
  | some l => if l = 0 then none else some l
  | none => none

/-- The language filter value (None becomes a null filter value). -/
def opt_str_value : Option String → Value
  | some s => .strV s
  | none => .nullV

/-- Model of `get_book` of `app/db/library_catalog.py`: when the caller's query
dict holds a string under "_id", that entry is overwritten in the
caller's dict with the ObjectId built from it (raising InvalidId on a
malformed string) before `find_one` runs.  The returned row is both the
caller's dict after the call and the filter handed to `find_one`. -/
def get_book (query : Row) : Except PyErr Row :=
  match getCol query "_id" with
  | some (.strV s) =>
    match object_id_of_string s with
    | none => .error PyErr.invalidId
    | some oid => .ok (setCol query "_id" (.oidV oid))
  | _ => .ok query

/-- Model of `get_books_by_author` of `app/db/library_catalog.py`: validates the
author, then queries by author membership and language, sorted ascending
by publishDate, optionally limited. -/
def get_books_by_author (author : Option String) (language : Option String)
    (lim : Option ℤ) : Except PyErr FindPlan :=
  match author with
  | none =>
    .error (PyErr.valueError "Author name must be provided and cannot be empty.")
  | some a =>
    if py_strip a = "" then
      .error (PyErr.valueError "Author name must be provided and cannot be empty.")
    else
      .ok { filter := [("authors", .strV a), ("language", opt_str_value language)]
            sortSpec := some ("publishDate", 1)
            lim := py_limit lim }

/-- Model of `get_top_rated_books_by_year` of `app/db/library_catalog.py`:
validates the year, then queries publishYear equality sorted descending
by rating, optionally limited. -/
def get_top_rated_books_by_year (year : Option ℤ) (lim : Option ℤ) :
    Except PyErr FindPlan :=
  match year with
  | none =>
    .error (PyErr.valueError "Year must be provided and cannot be empty.")
  | some y =>
    .ok { filter := [("publishYear", .dictV [("$eq", .intV y)])]
          sortSpec := some ("rating", -1)
          lim := py_limit lim }

/-- Model of `upsert_book` of `app/db/library_catalog.py` (the update operation):
rejects an empty update dict, then builds the ObjectId (raising
InvalidId on a malformed string) and hands the $set update to the
store. -/
def upsert_book (book_id : String) (updates : Row) (upsert : Bool) :
    Except PyErr UpdatePlan :=
  if updates.isEmpty then .error (PyErr.valueError "Updates cannot be empty.")
  else
    match object_id_of_string book_id with
    | none => .error PyErr.invalidId
    | some oid => .ok { filterId := oid, updates := updates, upsert := upsert }

/-- Model of `delete_book` of `app/db/library_catalog.py`: builds the ObjectId
(raising InvalidId on a malformed string) and hands the delete filter to
the store. -/
def delete_book (book_id : String) : Except PyErr String :=
  match object_id_of_string book_id with
  | none => .error PyErr.invalidId
  | some oid => .ok oid

/-- Fuel-driven chunking of the row list, as `pd.read_csv(chunksize=c)`
yields it: full chunks of `c` rows, the last one possibly shorter.  The
fuel (list length) bounds the number of chunks. -/
def chunks_fuel : ℕ → List Row → ℕ → List (List Row)
  | _, [], _ => []
  | 0, l, _ => [l]
  | fuel + 1, x :: rest, c =>
    (x :: rest.take (c - 1)) :: chunks_fuel fuel (rest.drop (c - 1)) c

/-- The chunks `pd.read_csv(chunksize=c)` yields for a source of the
given rows (meaningful for `c ≥ 1`, as in pandas). -/
def chunks (rows : List Row) (c : ℕ) : List (List Row) :=
  chunks_fuel rows.length rows c

/-- The chunk loop of `populate_from_csv` (`app/db/library_catalog.py`
lines 116-133): per chunk, break once the limit is reached, truncate the
chunk to the remaining quota, transform it, insert it and add the
inserted count.  A transform exception propagates and aborts the loop. -/
def populate_loop (litEval : String → Option Value)
    (fuzzy : String → Option ℤ) (limit : Option ℕ) :
    List (List Row) → ℕ → Except PyErr ℕ
  | [], total => .ok total
  | chunk :: rest, total =>
    match limit with
    | some l =>
      if l ≤ total then .ok total
      else do
        let t ← transform_chunk litEval fuzzy (chunk.take (l - total))
        populate_loop litEval fuzzy (some l) rest (total + t.length)
    | none => do
      let t ← transform_chunk litEval fuzzy chunk
      populate_loop litEval fuzzy none rest (total + t.length)

/-- Model of `populate_from_csv` of `app/db/library_catalog.py`: read the source
in chunks of `chunksize` rows, run the transform pipeline and insert,
respecting the optional total limit; returns the total inserted
count. -/
def populate_from_csv (litEval : String → Option Value)
    (fuzzy : String → Option ℤ) (rows : List Row) (limit : Option ℕ)
    (chunksize : ℕ) : Except PyErr ℕ :=
  populate_loop litEval fuzzy limit (chunks rows chunksize) 0

theorem getCol_cons (k k' : String) (v' : Value) (rest : Row) :
    getCol ((k', v') :: rest) k = if k = k' then some v' else getCol rest k := by
  by_cases h : k = k'
  · simp [getCol, List.lookup, h]
  · rw [getCol, List.lookup]
    rw [show (k == k') = false from beq_eq_false_iff_ne.mpr h]
    simp [h, getCol]

theorem getCol_setCol_self (r : Row) (k : String) (v : Value) :
    getCol (setCol r k v) k = some v := by
  induction r with
  | nil => simp [setCol, getCol_cons]
  | cons p rest ih =>
    obtain ⟨k', v'⟩ := p
    by_cases h : k' = k
    · simp [setCol, h, getCol_cons]
    · simp [setCol, h, getCol_cons, Ne.symm h, ih]

theorem getCol_setCol_ne (r : Row) (k c : String) (v : Value)
    (h : k ≠ c) : getCol (setCol r c v) k = getCol r k := by
  induction r with
  | nil => simp [setCol, getCol_cons, h, getCol]
  | cons p rest ih =>
    obtain ⟨k', v'⟩ := p
    by_cases hk : k' = c
    · subst hk
      simp [setCol, getCol_cons, h]
    · by_cases hkk : k = k'
      · simp [setCol, hk, getCol_cons, hkk]
      · simp [setCol, hk, getCol_cons, hkk, ih]

theorem getCol_filter_keep (r : Row) (pred : String × Value → Bool)
    (k : String) (hk : ∀ v, pred (k, v) = true) :
    getCol (r.filter pred) k = getCol r k := by
  induction r with
  | nil => simp
  | cons p rest ih =>
    obtain ⟨k', v'⟩ := p
    by_cases hkk : k = k'
    · subst hkk
      simp [List.filter_cons, hk v', getCol_cons]
    · by_cases hp : pred (k', v') = true
      · simp [List.filter_cons, hp, getCol_cons, hkk, ih]
      · simp [List.filter_cons, hp, getCol_cons, hkk, ih]

theorem getCol_mapCol_ne (r : Row) (k c : String) (f : Value → Value)
    (h : k ≠ c) : getCol (mapCol r c f) k = getCol r k := by
  induction r with
  | nil => simp [mapCol, getCol]
  | cons p rest ih =>
    obtain ⟨k', v'⟩ := p
    by_cases hk : k' = c
    · subst hk
      have : mapCol ((k', v') :: rest) k' f = (k', f v') :: mapCol rest k' f := by
        simp [mapCol]
      rw [this, getCol_cons, getCol_cons]
      simp [if_neg h, ih]
    · have : mapCol ((k', v') :: rest) c f = (k', v') :: mapCol rest c f := by
        simp [mapCol, hk]
      rw [this, getCol_cons, getCol_cons]
      by_cases hkk : k = k'
      · simp [hkk]
      · simp [hkk, ih]

theorem getCol_none_not_mem {r : Row} {k : String} {v : Value}
    (h : getCol r k = none) : (k, v) ∉ r := by
  induction r with
  | nil => simp
  | cons p rest ih =>
    obtain ⟨k', v'⟩ := p
    rw [getCol_cons] at h
    by_cases hk : k = k'
    · simp [hk] at h
    · intro hmem
      rcases List.mem_cons.mp hmem with heq | hmem
      · exact hk (congrArg Prod.fst heq)
      · exact ih (by simpa [hk] using h) hmem

theorem mapE_length {α β : Type} {f : α → Except PyErr β} :
    ∀ {l : List α} {out : List β}, mapE f l = .ok out →
      out.length = l.length := by
  intro l
  induction l with
  | nil => intro out h; simp [mapE] at h; simp [← h]
  | cons x xs ih =>
    intro out h
    simp only [mapE, bind, Except.bind] at h
    cases hf : f x with
    | error e => rw [hf] at h; cases h
    | ok y =>
      rw [hf] at h
      cases hm : mapE f xs with
      | error e => rw [hm] at h; cases h
      | ok ys =>
        rw [hm] at h
        simp only [pure, Except.pure, Except.ok.injEq] at h
        simp [← h, ih hm]

theorem mapE_ok_of_forall {α β : Type} {f : α → Except PyErr β}
    {l : List α} (h : ∀ x ∈ l, (f x).isOk = true) :
    ∃ out, mapE f l = .ok out ∧ out.length = l.length := by
  induction l with
  | nil => exact ⟨[], rfl, rfl⟩
  | cons x xs ih =>
    have hx := h x (by simp)
    cases hf : f x with
    | error e => rw [hf] at hx; simp [Except.isOk, Except.toBool] at hx
    | ok y =>
      obtain ⟨out, hout, hlen⟩ := ih (fun z hz => h z (by simp [hz]))
      refine ⟨y :: out, ?_, by simp [hlen]⟩
      simp [mapE, hf, hout, bind, Except.bind, pure, Except.pure]

theorem mapE_error_mono {α β : Type} {f : α → Except PyErr β}
    {l : List α} {x : α} (hx : x ∈ l) {e : PyErr} (hf : f x = .error e) :
    ∃ e', mapE f l = .error e' := by
  induction l with
  | nil => simp at hx
  | cons y ys ih =>
    rcases List.mem_cons.mp hx with h | h
    · subst h
      exact ⟨e, by simp [mapE, hf, bind, Except.bind]⟩
    · cases hfy : f y with
      | error e'' => exact ⟨e'', by simp [mapE, hfy, bind, Except.bind]⟩
      | ok z =>
        obtain ⟨e', he'⟩ := ih h
        exact ⟨e', by simp [mapE, hfy, he', bind, Except.bind]⟩

theorem transform_row_shape (le : String → Option Value)
    (fz : String → Option ℤ) (r : Row) :
    (∀ out, transform_row le fz r = .ok out →
      ∃ r3 r4, transform_ratings_by_stars
          (transform_dict_columns le (drop_unnecessary_columns r)) = .ok r3 ∧
        transform_authors_row more_marker r3 = .ok r4 ∧
        out = transform_publish_year fz r4) ∧
    ((transform_row le fz r).isOk = true ↔
      ∃ r3, transform_ratings_by_stars
          (transform_dict_columns le (drop_unnecessary_columns r)) = .ok r3 ∧
        (transform_authors_row more_marker r3).isOk = true) := by
  cases h : transform_ratings_by_stars
      (transform_dict_columns le (drop_unnecessary_columns r)) with
  | error e =>
    constructor
    · intro out hout
      simp [transform_row, h, bind, Except.bind] at hout
    · simp [transform_row, h, bind, Except.bind, Except.isOk, Except.toBool]
  | ok r3 =>
    cases h4 : transform_authors_row more_marker r3 with
    | error e =>
      constructor
      · intro out hout
        simp [transform_row, h, h4, bind, Except.bind] at hout
      · constructor
        · intro hok
          simp [transform_row, h, h4, bind, Except.bind, Except.isOk,
            Except.toBool] at hok
        · rintro ⟨r3', hr3', hok'⟩
          cases hr3'
          rw [h4] at hok'
          simp [Except.isOk, Except.toBool] at hok'
    | ok r4 =>
      constructor
      · intro out hout
        refine ⟨r3, r4, rfl, h4, ?_⟩
        simp only [transform_row, h, h4, bind, Except.bind, pure,
          Except.pure, Except.ok.injEq] at hout
        exact hout.symm
      · constructor
        · intro _
          exact ⟨r3, rfl, by rw [h4]; rfl⟩
        · intro _
          simp [transform_row, h, h4, bind, Except.bind, pure,
            Except.pure, Except.isOk, Except.toBool]

theorem mem_mapCol_key {r : Row} {c : String} {f : Value → Value}
    {k : String} {w : Value} (h : (k, w) ∈ mapCol r c f) :
    ∃ v, (k, v) ∈ r ∧ ((k = c ∧ w = f v) ∨ (k ≠ c ∧ w = v)) := by
  obtain ⟨p, hp, heq⟩ := List.mem_map.mp h
  by_cases hc : p.1 = c
  · rw [if_pos hc] at heq
    have hk : k = p.1 := (congrArg Prod.fst heq).symm
    have hw : w = f p.2 := (congrArg Prod.snd heq).symm
    refine ⟨p.2, ?_, Or.inl ⟨by rw [hk, hc], hw⟩⟩
    rw [hk]
    exact Prod.mk.eta ▸ hp
  · rw [if_neg hc] at heq
    subst heq
    exact ⟨w, hp, Or.inr ⟨by simpa using hc, rfl⟩⟩

theorem ratings_mem_dict_step_other {le : String → Option Value} {r : Row}
    {c : String} {w : Value} (hc : c ≠ "ratingsByStars")
    (h : ("ratingsByStars", w) ∈
      (if (getCol r c).isSome then mapCol r c (parse_dict le) else r)) :
    ("ratingsByStars", w) ∈ r := by
  by_cases hp : (getCol r c).isSome
  · rw [if_pos hp] at h
    obtain ⟨v, hv, hcase⟩ := mem_mapCol_key h
    rcases hcase with ⟨heq, _⟩ | ⟨_, heq⟩
    · exact absurd heq.symm hc
    · exact heq ▸ hv
  · rwa [if_neg hp] at h

theorem ratings_mem_dict_step_self {le : String → Option Value} {r : Row}
    {w : Value}
    (h : ("ratingsByStars", w) ∈
      (if (getCol r "ratingsByStars").isSome then
        mapCol r "ratingsByStars" (parse_dict le) else r)) :
    ∃ v, ("ratingsByStars", v) ∈ r ∧ w = parse_dict le v := by
  by_cases hp : (getCol r "ratingsByStars").isSome
  · rw [if_pos hp] at h
    obtain ⟨v, hv, hcase⟩ := mem_mapCol_key h
    rcases hcase with ⟨_, heq⟩ | ⟨hne, _⟩
    · exact ⟨v, hv, heq⟩
    · exact absurd rfl hne
  · rw [if_neg hp] at h
    exact absurd h (getCol_none_not_mem (by
      cases hg : getCol r "ratingsByStars" with
      | none => rfl
      | some v => rw [hg] at hp; simp at hp))

theorem ratings_mem_transform_dict {le : String → Option Value} {r : Row}
    {w : Value} (h : ("ratingsByStars", w) ∈ transform_dict_columns le r) :
    ∃ v, ("ratingsByStars", v) ∈ r ∧ w = parse_dict le v := by
  simp only [transform_dict_columns, dict_cols_list, List.foldl] at h
  have h1 := ratings_mem_dict_step_other (by decide) h
  obtain ⟨v, hv, hw⟩ := ratings_mem_dict_step_self h1
  have h2 := ratings_mem_dict_step_other (by decide) hv
  have h3 := ratings_mem_dict_step_other (by decide) h2
  have h4 := ratings_mem_dict_step_other (by decide) h3
  exact ⟨v, h4, hw⟩

theorem transform_ratings_ok (r : Row)
    (h : ∀ v, ("ratingsByStars", v) ∈ r →
      (ratings_to_int_list v).isOk = true) :
    (transform_ratings_by_stars r).isOk = true := by
  have hall : ∀ p ∈ r,
      ((fun (p : String × Value) =>
        if p.1 = "ratingsByStars" then do
          pure (p.1, (← (ratings_to_int_list p.2).map
            (fun (l : List ℤ) => Value.listV (l.map Value.intV))))
        else pure p) p).isOk
        = true := by
    intro p hpmem
    by_cases hk : p.1 = "ratingsByStars"
    · have hmem : ("ratingsByStars", p.2) ∈ r := by
        obtain ⟨k, v⟩ := p
        simp only at hk
        subst hk
        exact hpmem
      have := h p.2 hmem
      cases hr : ratings_to_int_list p.2 with
      | error e => rw [hr] at this; simp [Except.isOk, Except.toBool] at this
      | ok l =>
        simp [hk, hr, Except.map, bind, Except.bind, pure, Except.pure,
          Except.isOk, Except.toBool]
    · simp [hk, pure, Except.pure, Except.isOk, Except.toBool]
  unfold transform_ratings_by_stars
  by_cases hp : (getCol r "ratingsByStars").isSome
  · rw [if_pos hp]
    obtain ⟨out, hout, _⟩ := mapE_ok_of_forall hall
    rw [mapColE, hout]
    rfl
  · rw [if_neg hp]
    rfl

theorem mem_drop_unnecessary {r : Row} {p : String × Value}
    (h : p ∈ drop_unnecessary_columns r) : p ∈ r :=
  (List.mem_filter.mp h).1

theorem getCol_dict_steps_ne (le : String → Option Value) :
    ∀ (cols : List String) (r : Row) (k : String), (∀ c ∈ cols, c ≠ k) →
      getCol (cols.foldl (fun acc col =>
        if (getCol acc col).isSome then mapCol acc col (parse_dict le)
        else acc) r) k = getCol r k := by
  intro cols
  induction cols with
  | nil => intro r k _; rfl
  | cons c cs ih =>
    intro r k hk
    simp only [List.foldl]
    rw [ih _ k (fun c' hc' => hk c' (by simp [hc']))]
    by_cases hp : (getCol r c).isSome
    · rw [if_pos hp]
      exact getCol_mapCol_ne r k c (parse_dict le) (Ne.symm (hk c (by simp)))
    · rw [if_neg hp]

theorem getCol_transform_dict_ne (le : String → Option Value) (r : Row)
    (k : String) (hk : ∀ c ∈ dict_cols_list, c ≠ k) :
    getCol (transform_dict_columns le r) k = getCol r k :=
  getCol_dict_steps_ne le dict_cols_list r k hk

theorem mapE_cons_ok {α β : Type} {f : α → Except PyErr β} {x : α}
    {xs : List α} {out : List β} (h : mapE f (x :: xs) = .ok out) :
    ∃ y ys, f x = .ok y ∧ mapE f xs = .ok ys ∧ out = y :: ys := by
  cases hf : f x with
  | error e =>
    rw [mapE, hf] at h
    simp [bind, Except.bind] at h
  | ok y =>
    rw [mapE, hf] at h
    cases hm : mapE f xs with
    | error e =>
      rw [hm] at h
      simp [bind, Except.bind] at h
    | ok ys =>
      rw [hm] at h
      simp only [bind, Except.bind, pure, Except.pure, Except.ok.injEq] at h
      exact ⟨y, ys, rfl, rfl, h.symm⟩

theorem mapColE_getCol_ne {c : String} {f : Value → Except PyErr Value} :
    ∀ {r out : Row}, mapColE r c f = .ok out → ∀ {k : String}, k ≠ c →
      getCol out k = getCol r k := by
  intro r
  induction r with
  | nil =>
    intro out h k hk
    simp only [mapColE, mapE] at h
    cases h
    rfl
  | cons p rest ih =>
    intro out h k hk
    obtain ⟨q, ys, hq, hys, rfl⟩ := mapE_cons_ok h
    have hih : getCol ys k = getCol rest k := ih hys hk
    by_cases hp : p.1 = c
    · rw [if_pos hp] at hq
      cases hf : f p.2 with
      | error e =>
        rw [hf] at hq
        simp [bind, Except.bind] at hq
      | ok w =>
        rw [hf] at hq
        simp only [bind, Except.bind, pure, Except.pure,
          Except.ok.injEq] at hq
        subst hq
        rw [getCol_cons, getCol_cons]
        have hkp : ¬ k = p.1 := by rw [hp]; exact hk
        rw [if_neg hkp, if_neg hkp]
        exact hih
    · rw [if_neg hp] at hq
      simp only [pure, Except.pure, Except.ok.injEq] at hq
      rw [← hq]
      rw [getCol_cons, getCol_cons]
      by_cases hkp : k = p.1
      · rw [if_pos hkp, if_pos hkp]
      · rw [if_neg hkp, if_neg hkp]
        exact hih

theorem transform_ratings_getCol_ne {r out : Row}
    (h : transform_ratings_by_stars r = .ok out) {k : String}
    (hk : k ≠ "ratingsByStars") : getCol out k = getCol r k := by
  unfold transform_ratings_by_stars at h
  by_cases hp : (getCol r "ratingsByStars").isSome
  · rw [if_pos hp] at h
    exact mapColE_getCol_ne h hk
  · rw [if_neg hp] at h
    cases h
    rfl

theorem transform_authors_getCol_ne (m : String) (r : Row) (k : String)
    (h1 : k ≠ "authors") (h2 : k ≠ "author") :
    getCol (transform_authors m r) k = getCol r k := by
  unfold transform_authors
  cases ha : getCol r "author" with
  | none => rfl
  | some v =>
    unfold dropCol
    rw [getCol_filter_keep _ _ _ (fun w => by simp [h2]),
      getCol_setCol_ne r k "authors" _ h1]

theorem transform_publish_year_keeps_date (fz : String → Option ℤ)
    (r : Row) : getCol (transform_publish_year fz r) "publishDate" =
      getCol r "publishDate" := by
  unfold transform_publish_year
  cases hd : getCol r "publishDate" with
  | none => exact hd
  | some v =>
    have hs := getCol_setCol_ne r "publishDate" "publishYear"
      (year_value (parse_year fz v)) (by decide)
    exact hs.trans hd

theorem transform_publish_year_sets_year (fz : String → Option ℤ)
    (r : Row) (v : Value) (hv : getCol r "publishDate" = some v) :
    getCol (transform_publish_year fz r) "publishYear" =
      some (year_value (parse_year fz v)) := by
  unfold transform_publish_year
  rw [hv]
  exact getCol_setCol_self _ _ _

theorem transform_authors_row_getCol_ne {m : String} {r out : Row}
    (h : transform_authors_row m r = .ok out) {k : String}
    (h1 : k ≠ "authors") (h2 : k ≠ "author") :
    getCol out k = getCol r k := by
  unfold transform_authors_row at h
  cases ha : getCol r "author" with
  | none =>
    simp only [ha] at h
    cases h
    rfl
  | some v =>
    simp only [ha] at h
    by_cases hs : str_accessor_ok [v] = true
    · rw [if_pos hs] at h
      cases h
      exact transform_authors_getCol_ne m r k h1 h2
    · rw [if_neg hs] at h
      cases h

theorem transform_authors_row_ok_cell {m : String} {r : Row}
    (h : (transform_authors_row m r).isOk = true) :
    ∀ v, getCol r "author" = some v →
      (pd_isna v || is_str_value v) = true := by
  intro v hv
  unfold transform_authors_row at h
  simp only [hv] at h
  by_cases hs : str_accessor_ok [v] = true
  · simpa [str_accessor_ok] using hs
  · rw [if_neg hs] at h
    simp [Except.isOk, Except.toBool] at h

theorem transform_authors_row_ok_of_cell (m : String) {r : Row}
    (h : ∀ v, getCol r "author" = some v →
      (pd_isna v || is_str_value v) = true) :
    ∃ out, transform_authors_row m r = .ok out := by
  unfold transform_authors_row
  cases ha : getCol r "author" with
  | none =>
    simp only [ha]
    exact ⟨r, rfl⟩
  | some v =>
    have hs : str_accessor_ok [v] = true := by
      simpa [str_accessor_ok] using h v ha
    simp only [ha]
    rw [if_pos hs]
    exact ⟨transform_authors m r, rfl⟩

theorem mapE_mem_ok {α β : Type} {f : α → Except PyErr β} :
    ∀ {l : List α} {out : List β}, mapE f l = .ok out →
      ∀ y ∈ out, ∃ x ∈ l, f x = .ok y := by
  intro l
  induction l with
  | nil =>
    intro out h y hy
    simp only [mapE] at h
    cases h
    simp at hy
  | cons x xs ih =>
    intro out h y hy
    obtain ⟨z, zs, hz, hzs, rfl⟩ := mapE_cons_ok h
    rcases List.mem_cons.mp hy with hyz | hyzs
    · exact ⟨x, by simp, by rw [hz, hyz]⟩
    · obtain ⟨x', hx', hfx'⟩ := ih hzs y hyzs
      exact ⟨x', by simp [hx'], hfx'⟩

theorem str_accessor_ok_of_cells {col : List Value}
    (h : ∀ v ∈ col, (pd_isna v || is_str_value v) = true) :
    str_accessor_ok col = true := by
  by_cases hall : col.all pd_isna = true
  · simp [str_accessor_ok, hall]
  · rw [List.all_eq_true] at hall
    push_neg at hall
    obtain ⟨v, hv, hvn⟩ := hall
    have := h v hv
    have hstr : is_str_value v = true := by
      rcases Bool.or_eq_true_iff.mp this with hn | hs
      · exact absurd hn hvn
      · exact hs
    have : col.any is_str_value = true :=
      List.any_eq_true.mpr ⟨v, hv, hstr⟩
    simp [str_accessor_ok, this]

theorem transform_authors_chunk_ok (m : String) {rows : List Row}
    (h : ∀ r ∈ rows, ∀ v, getCol r "author" = some v →
      (pd_isna v || is_str_value v) = true) :
    ∃ out, transform_authors_chunk m rows = .ok out ∧
      out.length = rows.length := by
  unfold transform_authors_chunk
  by_cases he : (rows.filterMap (fun r => getCol r "author")).isEmpty = true
  · exact ⟨rows, by rw [if_pos he], rfl⟩
  · have hcells : ∀ v ∈ rows.filterMap (fun r => getCol r "author"),
        (pd_isna v || is_str_value v) = true := by
      intro v hv
      obtain ⟨r, hr, hrv⟩ := List.mem_filterMap.mp hv
      exact h r hr v hrv
    have hs := str_accessor_ok_of_cells hcells
    exact ⟨rows.map (transform_authors m),
      by rw [if_neg he, if_pos hs], by simp⟩

theorem transform_authors_chunk_length {m : String} {rows out : List Row}
    (h : transform_authors_chunk m rows = .ok out) :
    out.length = rows.length := by
  unfold transform_authors_chunk at h
  by_cases he : (rows.filterMap (fun r => getCol r "author")).isEmpty = true
  · rw [if_pos he] at h
    cases h
    rfl
  · rw [if_neg he] at h
    by_cases hs : str_accessor_ok
        (rows.filterMap (fun r => getCol r "author")) = true
    · rw [if_pos hs] at h
      cases h
      simp
    · rw [if_neg hs] at h
      cases h

theorem transform_chunk_shape (le : String → Option Value)
    (fz : String → Option ℤ) (rows : List Row) :
    ∀ out, transform_chunk le fz rows = .ok out →
      ∃ r3s r4s, mapE transform_ratings_by_stars (rows.map
          (fun r => transform_dict_columns le
            (drop_unnecessary_columns r))) = .ok r3s ∧
        transform_authors_chunk more_marker r3s = .ok r4s ∧
        out = r4s.map (transform_publish_year fz) := by
  intro out hout
  cases h3 : mapE transform_ratings_by_stars (rows.map
      (fun r => transform_dict_columns le (drop_unnecessary_columns r))) with
  | error e => simp [transform_chunk, h3, bind, Except.bind] at hout
  | ok r3s =>
    cases h4 : transform_authors_chunk more_marker r3s with
    | error e => simp [transform_chunk, h3, h4, bind, Except.bind] at hout
    | ok r4s =>
      refine ⟨r3s, r4s, rfl, h4, ?_⟩
      simp only [transform_chunk, h3, h4, bind, Except.bind, pure,
        Except.pure, Except.ok.injEq] at hout
      exact hout.symm

theorem transform_chunk_length {le : String → Option Value}
    {fz : String → Option ℤ} {rows out : List Row}
    (h : transform_chunk le fz rows = .ok out) :
    out.length = rows.length := by
  obtain ⟨r3s, r4s, h3, h4, rfl⟩ := transform_chunk_shape le fz rows out h
  have := mapE_length h3
  have := transform_authors_chunk_length h4
  simp only [List.length_map] at *
  omega

theorem transform_chunk_ok_of_rows (le : String → Option Value)
    (fz : String → Option ℤ) {rows : List Row}
    (h : ∀ r ∈ rows, (transform_row le fz r).isOk = true) :
    ∃ out, transform_chunk le fz rows = .ok out ∧
      out.length = rows.length := by
  have hr3 : ∀ x ∈ rows.map (fun r => transform_dict_columns le
      (drop_unnecessary_columns r)), (transform_ratings_by_stars x).isOk
        = true := by
    intro x hx
    obtain ⟨r, hr, rfl⟩ := List.mem_map.mp hx
    obtain ⟨r3, h3, _⟩ := (transform_row_shape le fz r).2.mp (h r hr)
    rw [h3]
    rfl
  obtain ⟨r3s, h3, hlen3⟩ := mapE_ok_of_forall hr3
  have hcells : ∀ r3 ∈ r3s, ∀ v, getCol r3 "author" = some v →
      (pd_isna v || is_str_value v) = true := by
    intro r3 hr3mem
    obtain ⟨x, hx, hfx⟩ := mapE_mem_ok h3 r3 hr3mem
    obtain ⟨r, hr, rfl⟩ := List.mem_map.mp hx
    obtain ⟨r3', h3', hok'⟩ := (transform_row_shape le fz r).2.mp (h r hr)
    rw [h3'] at hfx
    cases hfx
    exact transform_authors_row_ok_cell hok'
  obtain ⟨r4s, h4, hlen4⟩ := transform_authors_chunk_ok more_marker hcells
  refine ⟨r4s.map (transform_publish_year fz), ?_, ?_⟩
  · simp [transform_chunk, h3, h4, bind, Except.bind, pure, Except.pure]
  · simp only [List.length_map] at *
    omega

theorem chunks_fuel_flatten :
    ∀ (fuel : ℕ) (l : List Row) (c : ℕ), l.length ≤ fuel → 1 ≤ c →
      (chunks_fuel fuel l c).flatten = l := by
  intro fuel
  induction fuel with
  | zero =>
    intro l c hl _
    cases l with
    | nil => rfl
    | cons x rest => simp at hl
  | succ n ih =>
    intro l c hl hc
    cases l with
    | nil => rfl
    | cons x rest =>
      simp only [chunks_fuel, List.flatten_cons]
      rw [ih (rest.drop (c - 1)) c (by simp at hl ⊢; omega) hc]
      simp [List.take_append_drop]

theorem chunks_flatten (rows : List Row) (c : ℕ) (hc : 1 ≤ c) :
    (chunks rows c).flatten = rows :=
  chunks_fuel_flatten rows.length rows c le_rfl hc

theorem populate_loop_reaches_limit (le : String → Option Value)
    (fz : String → Option ℤ) :
    ∀ (cs : List (List Row)) (l total : ℕ),
      (∀ r ∈ cs.flatten, (transform_row le fz r).isOk = true) →
      total ≤ l → l ≤ total + (cs.map List.length).sum →
      populate_loop le fz (some l) cs total = .ok l := by
  intro cs
  induction cs with
  | nil =>
    intro l total _ htl hlt
    simp only [List.map_nil, List.sum_nil, Nat.add_zero] at hlt
    have : total = l := le_antisymm htl hlt
    rw [populate_loop, this]
  | cons chunk rest ih =>
    intro l total hok htl hlt
    rw [populate_loop]
    by_cases hle : l ≤ total
    · rw [if_pos hle]
      have : total = l := le_antisymm htl hle
      rw [this]
    · rw [if_neg hle]
      have hsub : ∀ r ∈ chunk.take (l - total),
          (transform_row le fz r).isOk = true := by
        intro r hr
        refine hok r (List.mem_flatten.mpr ⟨chunk, by simp, ?_⟩)
        exact List.take_subset _ _ hr
      obtain ⟨out, htc, hlen⟩ := transform_chunk_ok_of_rows le fz hsub
      rw [htc]
      simp only [bind, Except.bind]
      rw [List.length_take] at hlen
      have hrest : ∀ r ∈ rest.flatten, (transform_row le fz r).isOk = true := by
        intro r hr
        obtain ⟨ch, hch, hrch⟩ := List.mem_flatten.mp hr
        exact hok r (List.mem_flatten.mpr ⟨ch, by simp [hch], hrch⟩)
      simp only [List.map_cons, List.sum_cons] at hlt
      rcases le_or_lt chunk.length (l - total) with hcase | hcase
      · rw [Nat.min_eq_right hcase] at hlen
        exact ih l (total + out.length) hrest (by omega) (by omega)
      · rw [Nat.min_eq_left (Nat.le_of_lt hcase)] at hlen
        exact ih l (total + out.length) hrest (by omega) (by omega)

/-- C1: for every book whose stored ratingsByStars is absent or a
5-element list of non-negative integers, rate_book with stars in [1,5]
increments the bucket at index 5 - stars and leaves the others
unchanged, sets numRatings to the sum of the buckets, sets rating to
the weighted bucket average rounded to 2 decimals, and sets likedPercent
to the rounded percentage of the 5,4,3-star buckets; in particular,
from all-zero buckets stars=5 yields [1,0,0,0,0], numRatings=1,
rating=5.00, likedPercent=100, and a subsequent stars=1 yields
[1,0,0,0,1], numRatings=2, rating=3.00, likedPercent=50. -/
theorem rate_book_bucket_arithmetic (stored : Option (List ℤ)) (stars : ℤ)
    (h1 : 1 ≤ stars) (h5 : stars ≤ 5)
    (hpre : stored = none ∨
      ∃ l, stored = some l ∧ l.length = 5 ∧ ∀ x ∈ l, 0 ≤ x) :
    (∃ u, rate_book (some stored) stars = .ok (some u) ∧
      u.ratingsByStars.length = 5 ∧
      u.ratingsByStars.get? (5 - stars).toNat =
        ((stored_base stored).get? (5 - stars).toNat).map (fun x => x + 1) ∧
      (∀ j, j ≠ (5 - stars).toNat →
        u.ratingsByStars.get? j = (stored_base stored).get? j) ∧
      u.numRatings = u.ratingsByStars.sum ∧
      u.rating = py_round2 (weighted_sum u.ratingsByStars) u.numRatings ∧
      u.likedPercent =
        round_half_even (100 * (u.ratingsByStars.take 3).sum) u.numRatings) ∧
    rate_book (some none) 5 = .ok (some ⟨[1, 0, 0, 0, 0], 1, 5, 100⟩) ∧
    rate_book (some (some [0, 0, 0, 0, 0])) 5 =
      .ok (some ⟨[1, 0, 0, 0, 0], 1, 5, 100⟩) ∧
    rate_book (some (some [1, 0, 0, 0, 0])) 1 =
      .ok (some ⟨[1, 0, 0, 0, 1], 2, 3, 50⟩) := by
  obtain ⟨rbs, hb, heq, hlen, hnn, hpos, hget, hother⟩ :=
    rate_book_update_ok stored stars h1 h5 hpre
  have hcond : ¬(stars < 1 ∨ 5 < stars) := by omega
  refine ⟨⟨{ ratingsByStars := rbs
             numRatings := rbs.sum
             rating := py_round2 (weighted_sum rbs) rbs.sum
             likedPercent := round_half_even (100 * (rbs.take 3).sum) rbs.sum },
           ?_, hlen, hget, hother, rfl, rfl, rfl⟩,
         by decide, by decide, by decide⟩
  simp only [rate_book, if_neg hcond, heq, Except.map]

/-- C1 witness: the theorem applied at the concrete all-zero book and
stars = 5. -/
theorem rate_book_bucket_arithmetic_witness :
    rate_book (some none) 5 = .ok (some ⟨[1, 0, 0, 0, 0], 1, 5, 100⟩) :=
  (rate_book_bucket_arithmetic none 5 (by decide) (by decide)
    (Or.inl rfl)).2.1

/-- C7: under the data-model precondition, the bucket just incremented
makes the recomputed numRatings at least 1, so rate_book's divisions
never divide by zero (no zeroDivisionError: the update succeeds). -/
theorem rate_book_no_division_by_zero (stored : Option (List ℤ))
    (stars : ℤ) (h1 : 1 ≤ stars) (h5 : stars ≤ 5)
    (hpre : stored = none ∨
      ∃ l, stored = some l ∧ l.length = 5 ∧ ∀ x ∈ l, 0 ≤ x) :
    ∃ u, rate_book_update stored stars = .ok u ∧ 1 ≤ u.numRatings ∧
      u.numRatings = u.ratingsByStars.sum := by
  obtain ⟨rbs, hb, heq, hlen, hnn, hpos, hget, hother⟩ :=
    rate_book_update_ok stored stars h1 h5 hpre
  exact ⟨_, heq, hpos, rfl⟩

/-- C7 witness: the theorem applied at a concrete stored bucket list and
stars = 3. -/
theorem rate_book_no_division_by_zero_witness :
    ∃ u, rate_book_update (some [2, 0, 1, 0, 0]) 3 = .ok u ∧
      1 ≤ u.numRatings ∧ u.numRatings = u.ratingsByStars.sum :=
  rate_book_no_division_by_zero (some [2, 0, 1, 0, 0]) 3 (by decide)
    (by decide) (Or.inr ⟨_, rfl, by decide, by decide⟩)

/-- A ratingsByStars cell that is not a list degrades to the all-zero
default. -/
theorem ratings_not_list_default (v : Value) (hv : ∀ l, v ≠ .listV l) :
    ratings_to_int_list v = .ok [0, 0, 0, 0, 0] := by
  cases v with
  | listV l => exact absurd rfl (hv l)
  | nullV => rfl
  | boolV b => rfl
  | intV n => rfl
  | ratV q => rfl
  | strV s => rfl
  | dateV y m d => rfl
  | oidV s => rfl
  | dictV l => rfl

/-- C2 (amended): rate_book preserves the data-model invariant — under
the precondition it writes a 5-element non-negative bucket list with
numRatings equal to its sum — and the ingestion normalizer guarantees
the 5-element default only when the parsed cell is not a list; a parsed
list keeps its own length and ingestion never recomputes numRatings. -/
theorem book_invariant_amended :
    (∀ (stored : Option (List ℤ)) (stars : ℤ), 1 ≤ stars → stars ≤ 5 →
      (stored = none ∨
        ∃ l, stored = some l ∧ l.length = 5 ∧ ∀ x ∈ l, 0 ≤ x) →
      ∃ u, rate_book_update stored stars = .ok u ∧
        u.ratingsByStars.length = 5 ∧ (∀ x ∈ u.ratingsByStars, 0 ≤ x) ∧
        u.numRatings = u.ratingsByStars.sum) ∧
    (∀ v : Value, (∀ l, v ≠ .listV l) →
      ratings_to_int_list v = .ok [0, 0, 0, 0, 0]) := by
  constructor
  · intro stored stars h1 h5 hpre
    obtain ⟨rbs, hb, heq, hlen, hnn, hpos, hget, hother⟩ :=
      rate_book_update_ok stored stars h1 h5 hpre
    exact ⟨_, heq, hlen, hnn, rfl⟩
  · exact ratings_not_list_default

/-- C2 witness: the rate_book part of the theorem applied to a book
with the field absent and stars = 2. -/
theorem book_invariant_amended_witness :
    ∃ u, rate_book_update none 2 = .ok u ∧
      u.ratingsByStars.length = 5 ∧ (∀ x ∈ u.ratingsByStars, 0 ≤ x) ∧
      u.numRatings = u.ratingsByStars.sum :=
  book_invariant_amended.1 none 2 (by decide) (by decide) (Or.inl rfl)

/-- C2 counterexample: a ratingsByStars cell that parses to the 3-element
list [1, 2, 3] passes through the whole row transform as a 3-element
list — the stored field is not a 5-element list, refuting the claimed
invariant for ingestion-created documents. -/
theorem book_invariant_counterexample :
    transform_row
      (fun s => if s = "[1, 2, 3]" then
        some (.listV [.intV 1, .intV 2, .intV 3]) else none)
      (fun _ => none)
      [("ratingsByStars", .strV "[1, 2, 3]")] =
      .ok [("ratingsByStars", .listV [.intV 1, .intV 2, .intV 3])] ∧
    ([.intV 1, .intV 2, .intV 3] : List Value).length ≠ 5 := by
  exact ⟨rfl, by decide⟩

/-- A single row transforms without raising when its parsed
ratingsByStars cell coerces and its author cell (if any) is a string
or NaN. -/
theorem transform_row_ok_of_cells (le : String → Option Value)
    (fz : String → Option ℤ) (r : Row)
    (h1 : ∀ v, ("ratingsByStars", v) ∈ r →
      (ratings_to_int_list (parse_dict le v)).isOk = true)
    (h2 : ∀ v, getCol r "author" = some v →
      (pd_isna v || is_str_value v) = true) :
    (transform_row le fz r).isOk = true := by
  have hrat : (transform_ratings_by_stars
      (transform_dict_columns le (drop_unnecessary_columns r))).isOk
        = true := by
    apply transform_ratings_ok
    intro v hv
    obtain ⟨v0, hv0, rfl⟩ := ratings_mem_transform_dict hv
    exact h1 v0 (mem_drop_unnecessary hv0)
  cases he : transform_ratings_by_stars
      (transform_dict_columns le (drop_unnecessary_columns r)) with
  | error e =>
    rw [he] at hrat
    simp [Except.isOk, Except.toBool] at hrat
  | ok r3 =>
    have hau : getCol r3 "author" = getCol r "author" := by
      rw [transform_ratings_getCol_ne he (by decide),
        getCol_transform_dict_ne _ _ _ (by decide),
        drop_unnecessary_columns,
        getCol_filter_keep _ _ _ (fun w => by simp [drop_cols_list])]
    obtain ⟨r4, h4⟩ := transform_authors_row_ok_of_cell more_marker
      (fun v hv => h2 v (by rw [hau] at hv; exact hv))
    exact (transform_row_shape le fz r).2.mpr ⟨r3, he, by rw [h4]; rfl⟩

/-- C3 (amended): the transform produces one record per input row, and
it raises only through the ratingsByStars integer coercion or the
author-column `.str` accessor validation: a chunk whose every parsed
ratingsByStars cell coerces and whose every author cell is a string or
missing/NaN transforms without raising, and a ratingsByStars cell that
is not a list degrades to [0,0,0,0,0]. -/
theorem transform_chunk_degrades_amended :
    (∀ (le : String → Option Value) (fz : String → Option ℤ)
        (rows out : List Row), transform_chunk le fz rows = .ok out →
      out.length = rows.length) ∧
    (∀ (le : String → Option Value) (fz : String → Option ℤ)
        (rows : List Row),
      (∀ r ∈ rows,
        (∀ v, ("ratingsByStars", v) ∈ r →
          (ratings_to_int_list (parse_dict le v)).isOk = true) ∧
        (∀ v, getCol r "author" = some v →
          (pd_isna v || is_str_value v) = true)) →
      (transform_chunk le fz rows).isOk = true) ∧
    (∀ v : Value, (∀ l, v ≠ .listV l) →
      ratings_to_int_list v = .ok [0, 0, 0, 0, 0]) := by
  refine ⟨?_, ?_, ratings_not_list_default⟩
  · intro le fz rows out h
    exact transform_chunk_length h
  · intro le fz rows h
    obtain ⟨out, hout, _⟩ := transform_chunk_ok_of_rows le fz
      (fun r hr => transform_row_ok_of_cells le fz r (h r hr).1 (h r hr).2)
    rw [hout]
    rfl

/-- C3 witness: the no-raise part of the theorem applied to a concrete
one-row chunk whose ratingsByStars cell parses to a coercible list and
which has no author column. -/
theorem transform_chunk_degrades_amended_witness :
    (transform_chunk
      (fun s => if s = "[7, 0, 0, 0, 0]" then
        some (.listV [.intV 7, .intV 0, .intV 0, .intV 0, .intV 0])
      else none)
      (fun _ => none)
      [[("ratingsByStars", .strV "[7, 0, 0, 0, 0]")]]).isOk = true :=
  transform_chunk_degrades_amended.2.1 _ _ _ (by
    intro r hr
    have hre : r = [("ratingsByStars", Value.strV "[7, 0, 0, 0, 0]")] := by
      rcases List.mem_cons.mp hr with heq | hmem
      · exact heq
      · simp at hmem
    subst hre
    constructor
    · intro v hv
      have : v = Value.strV "[7, 0, 0, 0, 0]" := by
        rcases List.mem_cons.mp hv with heq | hmem
        · exact congrArg Prod.snd heq
        · simp at hmem
      rw [this]
      rfl
    · intro v hv
      have hnone : getCol
          [("ratingsByStars", Value.strV "[7, 0, 0, 0, 0]")] "author"
            = none := rfl
      rw [hnone] at hv
      cases hv)

/-- C3 counterexample: a ratingsByStars cell that parses to a list with
a non-numeric string element makes the transform raise ValueError
(Python `int("x")`), so the batch aborts instead of degrading. -/
theorem transform_chunk_degrades_counterexample :
    transform_chunk
      (fun s => if s = "[\"x\"]" then some (.listV [.strV "x"]) else none)
      (fun _ => none)
      [[("ratingsByStars", .strV "[\"x\"]")]] =
      .error (PyErr.valueError "invalid literal for int() with base 10") :=
  rfl

/-- Any split entry whose stripped lowercase form equals the cleanup's
marker does not survive the cleanup. -/
theorem marker_entries_dropped (marker s : String) (a : String)
    (heq : py_lower (py_strip a) = marker) :
    py_strip a ∉ clean_author_string marker s := by
  intro hmem
  unfold clean_author_string at hmem
  obtain ⟨b, hb, hba⟩ := List.mem_map.mp hmem
  have hbf := List.mem_filter.mp hb
  have hne : py_lower (py_strip b) ≠ marker := by
    have := hbf.2
    simpa using this
  exact hne (by rw [hba, heq])

/-- C4 (amended): each author cleanup matches exactly one encoding of
the truncation marker — the pipeline cleanup of
`app/pipelines/transform.py` drops entries equal (case-insensitively,
after stripping) to the correct Unicode marker, and the legacy cleanup
of `app/library_catalog.py` drops entries equal to the corrupted
variant; the documented example holds for the pipeline cleanup, and the
corrupted-variant example for the legacy one. -/
theorem author_cleanup_amended :
    (∀ (s a : String), py_lower (py_strip a) = more_marker →
      py_strip a ∉ clean_author_string more_marker s) ∧
    (∀ (s a : String), py_lower (py_strip a) = more_marker_mangled →
      py_strip a ∉ clean_author_string more_marker_mangled s) ∧
    clean_author_string more_marker
      "J.K. Rowling(Goodreads Author), Mary GrandPré, more…" =
      ["J.K. Rowling", "Mary GrandPré"] ∧
    clean_author_string more_marker_mangled "A, moreâ€¦" = ["A"] :=
  ⟨fun s a h => marker_entries_dropped more_marker s a h,
   fun s a h => marker_entries_dropped more_marker_mangled s a h,
   by decide, by decide⟩

/-- C4 witness: the pipeline-marker part of the theorem applied to the
concrete entry "MORE…" inside a concrete author string. -/
theorem author_cleanup_amended_witness :
    py_strip "MORE…" ∉ clean_author_string more_marker "A, MORE…" :=
  author_cleanup_amended.1 "A, MORE…" "MORE…" (by decide)

/-- C4 counterexample: the pipeline cleanup keeps an entry equal to the
corrupted-encoding variant of the truncation marker, so the marker is
not matched in both of its forms there. -/
theorem author_cleanup_counterexample :
    clean_author_string more_marker "A, moreâ€¦" = ["A", "moreâ€¦"] := by
  decide

/-- C5 (amended): when a publishDate column is present, the transform
pipeline derives publishYear via parse_year, but leaves the publishDate
cell itself completely unchanged — it is not normalized through a date
parser (parse_date is applied only in the legacy populate_from_csv of
`app/library_catalog.py`, and no parse_date definition exists in the
sources). -/
theorem transform_publish_year_amended (le : String → Option Value)
    (fz : String → Option ℤ) (r out : Row) (v : Value)
    (hout : transform_row le fz r = .ok out)
    (hv : getCol r "publishDate" = some v) :
    getCol out "publishDate" = some v ∧
    getCol out "publishYear" = some (year_value (parse_year fz v)) := by
  obtain ⟨r3, r4, hr3, hr4, rfl⟩ := (transform_row_shape le fz r).1 out hout
  have h1 : getCol (drop_unnecessary_columns r) "publishDate" = some v := by
    rw [drop_unnecessary_columns,
      getCol_filter_keep _ _ _ (fun w => by simp [drop_cols_list])]
    exact hv
  have h2 : getCol (transform_dict_columns le (drop_unnecessary_columns r))
      "publishDate" = some v := by
    rw [getCol_transform_dict_ne _ _ _ (by decide)]
    exact h1
  have h3 : getCol r3 "publishDate" = some v := by
    rw [transform_ratings_getCol_ne hr3 (by decide)]
    exact h2
  have h4 : getCol r4 "publishDate" = some v := by
    rw [transform_authors_row_getCol_ne hr4 (by decide) (by decide)]
    exact h3
  exact ⟨(transform_publish_year_keeps_date fz _).trans h4,
    transform_publish_year_sets_year fz _ v h4⟩

/-- C5 witness: the theorem applied to a concrete row with a 4-digit
publishDate, whose transform is evaluated explicitly. -/
theorem transform_publish_year_amended_witness :
    getCol [("publishDate", Value.strV "2001"),
            ("publishYear", Value.intV 2001)] "publishDate" =
      some (.strV "2001") ∧
    getCol [("publishDate", Value.strV "2001"),
            ("publishYear", Value.intV 2001)] "publishYear" =
      some (year_value (parse_year (fun _ => none) (.strV "2001"))) :=
  transform_publish_year_amended (fun _ => none) (fun _ => none)
    [("publishDate", .strV "2001")]
    [("publishDate", .strV "2001"), ("publishYear", .intV 2001)]
    (.strV "2001") rfl rfl

/-- C5 counterexample: on an unparseable publishDate cell the pipeline
leaves the raw string in place — the stored publishDate is neither a
normalized date nor null. -/
theorem transform_publish_year_counterexample :
    transform_row (fun _ => none) (fun _ => none)
      [("publishDate", .strV "not a date")] =
      .ok [("publishDate", .strV "not a date"),
           ("publishYear", .nullV)] ∧
    (∀ y m d : ℤ, Value.strV "not a date" ≠ .dateV y m d) ∧
    Value.strV "not a date" ≠ .nullV :=
  ⟨rfl, fun y m d => by simp, by simp⟩

/-- C6 (amended): for every source, limit N at most the row count, and
positive chunk size, populate_from_csv inserts exactly N documents and
returns N — provided every ingested row transforms without raising (a
transform exception propagates out of the loop instead, see the
counterexample). -/
theorem populate_inserts_exact_limit (le : String → Option Value)
    (fz : String → Option ℤ) (rows : List Row) (N chunksize : ℕ)
    (hc : 0 < chunksize) (hN : N ≤ rows.length)
    (hok : ∀ r ∈ rows, (transform_row le fz r).isOk = true) :
    populate_from_csv le fz rows (some N) chunksize = .ok N := by
  unfold populate_from_csv
  apply populate_loop_reaches_limit
  · rw [chunks_flatten rows chunksize hc]
    exact hok
  · exact Nat.zero_le N
  · have hflat := chunks_flatten rows chunksize hc
    have hlen : ((chunks rows chunksize).map List.length).sum
        = rows.length := by
      rw [← List.length_flatten, hflat]
    omega

/-- C6 witness: the theorem applied to a concrete 3-row source with
limit 2 and chunk size 2. -/
theorem populate_inserts_exact_limit_witness :
    populate_from_csv (fun _ => none) (fun _ => none)
      [[("title", Value.strV "A")], [("title", Value.strV "B")],
       [("title", Value.strV "C")]] (some 2) 2 = .ok 2 :=
  populate_inserts_exact_limit (fun _ => none) (fun _ => none)
    [[("title", .strV "A")], [("title", .strV "B")],
     [("title", .strV "C")]] 2 2 (by decide) (by decide) (by
      intro r hr
      rcases List.mem_cons.mp hr with h | hr
      · rw [h]; rfl
      rcases List.mem_cons.mp hr with h | hr
      · rw [h]; rfl
      rcases List.mem_cons.mp hr with h | hr
      · rw [h]; rfl
      · simp at hr)

/-- C6 counterexample: a 1-row source whose single row poisons the
transform (int("x") raises) makes populate_from_csv raise instead of
inserting limit = 1 ≤ M = 1 documents, so the claim fails for such a
source regardless of batch size. -/
theorem populate_inserts_exact_limit_counterexample :
    populate_from_csv
      (fun s => if s = "[\"x\"]" then some (.listV [.strV "x"]) else none)
      (fun _ => none)
      [[("ratingsByStars", .strV "[\"x\"]")]] (some 1) 1 =
      .error (PyErr.valueError "invalid literal for int() with base 10") :=
  rfl

/-- An InvalidArgument outcome: the operation raised the explicit
ValueError guard (the spec's invalid-argument condition), as opposed to
returning a store plan or raising a different exception. -/
def is_invalid_argument {α : Type} (r : Except PyErr α) : Prop :=
  ∃ msg, r = .error (PyErr.valueError msg)

/-- C8: the query/update operations raise InvalidArgument exactly on a
degenerate required argument — get_books_by_author iff the author is
None or blank, get_top_rated_books_by_year iff the year is None, and
the update operation iff the updates dict is empty — and in the error
case no find/update plan is handed to the store. -/
theorem invalid_argument_exactly_on_degenerate :
    (∀ (author language : Option String) (lim : Option ℤ),
      is_invalid_argument (get_books_by_author author language lim) ↔
        (author = none ∨ ∃ a, author = some a ∧ py_strip a = "")) ∧
    (∀ (year lim : Option ℤ),
      is_invalid_argument (get_top_rated_books_by_year year lim) ↔
        year = none) ∧
    (∀ (book_id : String) (updates : Row) (ups : Bool),
      is_invalid_argument (upsert_book book_id updates ups) ↔
        updates = []) := by
  refine ⟨?_, ?_, ?_⟩
  · intro author language lim
    cases author with
    | none => simp [get_books_by_author, is_invalid_argument]
    | some a =>
      by_cases h : py_strip a = ""
      · simp [get_books_by_author, h, is_invalid_argument]
      · simp [get_books_by_author, h, is_invalid_argument]
  · intro year lim
    cases year with
    | none => simp [get_top_rated_books_by_year, is_invalid_argument]
    | some y => simp [get_top_rated_books_by_year, is_invalid_argument]
  · intro book_id updates ups
    cases updates with
    | nil => simp [upsert_book, is_invalid_argument, List.isEmpty]
    | cons p rest =>
      cases h : object_id_of_string book_id with
      | none => simp [upsert_book, h, is_invalid_argument, List.isEmpty]
      | some oid => simp [upsert_book, h, is_invalid_argument, List.isEmpty]

/-- C9 (amended): for a query dict whose "_id" entry is a string that is
a well-formed ObjectId, get_book overwrites that entry in the caller's
dict with the ObjectId value before the lookup, leaving every other key
unchanged; a malformed string instead raises InvalidId before any
mutation (see the counterexample). -/
theorem get_book_mutates_query (query : Row) (s : String)
    (hq : getCol query "_id" = some (.strV s))
    (hv : object_id_of_string s = some s) :
    get_book query = .ok (setCol query "_id" (.oidV s)) ∧
    getCol (setCol query "_id" (.oidV s)) "_id" = some (.oidV s) ∧
    (∀ k, k ≠ "_id" →
      getCol (setCol query "_id" (.oidV s)) k = getCol query k) := by
  refine ⟨?_, getCol_setCol_self _ _ _,
    fun k hk => getCol_setCol_ne _ _ _ _ hk⟩
  simp only [get_book, hq, hv]

/-- C9 witness: the theorem applied to a concrete query with a valid
24-hex-character id string and one extra key. -/
theorem get_book_mutates_query_witness :
    get_book [("_id", Value.strV "0123456789abcdef01234567"),
              ("title", Value.strV "T")] =
      .ok (setCol [("_id", Value.strV "0123456789abcdef01234567"),
                   ("title", Value.strV "T")] "_id"
            (.oidV "0123456789abcdef01234567")) :=
  (get_book_mutates_query
    [("_id", Value.strV "0123456789abcdef01234567"),
     ("title", Value.strV "T")] "0123456789abcdef01234567" rfl rfl).1

/-- C9 counterexample: with an "_id" string that is not a well-formed
ObjectId, get_book raises InvalidId — it does not replace the value and
perform the lookup, so the claimed behaviour fails for this string
value. -/
theorem get_book_mutates_query_counterexample :
    get_book [("_id", Value.strV "xyz")] = .error PyErr.invalidId := rfl

/-- C10: for every string that is not a well-formed ObjectId,
delete_book, get_book with an "_id" filter holding it, and the update
operation all raise (InvalidId from the ObjectId constructor, or the
empty-updates ValueError) instead of returning the None/False
not-found result. -/
theorem malformed_id_raises (s : String)
    (h : object_id_of_string s = none) :
    delete_book s = .error PyErr.invalidId ∧
    (∀ q : Row, getCol q "_id" = some (.strV s) →
      get_book q = .error PyErr.invalidId) ∧
    (∀ (updates : Row) (ups : Bool), updates ≠ [] →
      upsert_book s updates ups = .error PyErr.invalidId) ∧
    (∀ (updates : Row) (ups : Bool),
      (upsert_book s updates ups).isOk = false) := by
  refine ⟨?_, ?_, ?_, ?_⟩
  · simp [delete_book, h]
  · intro q hq
    simp only [get_book, hq, h]
  · intro updates ups hne
    cases updates with
    | nil => exact absurd rfl hne
    | cons p rest => simp [upsert_book, h, List.isEmpty]
  · intro updates ups
    cases updates with
    | nil => rfl
    | cons p rest =>
      simp [upsert_book, h, List.isEmpty, Except.isOk, Except.toBool]

/-- C10 witness: the theorem applied to the malformed id "xyz". -/
theorem malformed_id_raises_witness :
    delete_book "xyz" = .error PyErr.invalidId ∧
    get_book [("_id", Value.strV "xyz"), ("language", Value.strV "English")]
      = .error PyErr.invalidId ∧
    upsert_book "xyz" [("title", Value.strV "T")] false =
      .error PyErr.invalidId :=
  ⟨(malformed_id_raises "xyz" rfl).1,
   (malformed_id_raises "xyz" rfl).2.1 _ rfl,
   (malformed_id_raises "xyz" rfl).2.2.1 _ false (by simp)⟩
